import Mathlib

/-!
Shallow embedding of the map-extraction / centerline-stitching / speed-profiling
core of the aichallenge-2025 tool scripts, together with theorems checking the
natural-language specification against the code.

Machine reals of the Python source are modelled as rationals (`ℚ`); library
transcendental functions (`math.cos`, `math.atan2`, `math.sin`, the pyproj
transformer, `float()` string parsing) are passed in as abstract function
parameters, so every definition stays computable and the control flow of the
source is embedded exactly.
-/

namespace AIC

/-! ## trajectory_raceline.py — curvature-based speed profiler

`base_speed` is the curvature → base-speed lookup table; `adjusted_speed`
is the lookahead/lookbehind adjustment loop (`for i in range(len(curvature))`).
NaN-valued curvature cannot arise over `ℚ`, but note the table's comparisons
already make any value fall through to 9.9 when all three `<` tests fail, so
the bound proved below does not depend on it. -/

def base_speed (c : ℚ) : ℚ :=
  let abs_c := |c|
  if abs_c < 0.02 then 10.50
  else if abs_c < 0.05 then 10.45
  else if abs_c < 0.1 then 10.20
  else 9.9

/-- One iteration of the adjustment loop at index `i`
(`curvature[j]` is modelled as `curvature.getD j 0`; every access the code
performs is guarded in range, so the default is never read). -/
def adjustAt (curvature : List ℚ) (lookahead : Nat) (i : Nat) : ℚ :=
  let base := base_speed (curvature.getD i 0)
  if i + lookahead < curvature.length ∧
      curvature.getD (i + lookahead) 0 - curvature.getD i 0 > 0.001 then
    base * 0.95
  else if lookahead ≤ i ∧
      curvature.getD (i - lookahead) 0 - curvature.getD i 0 > 0.001 then
    min (base * 1.10) 10.50
  else
    base

def adjusted_speed (curvature : List ℚ) (lookahead : Nat) : List ℚ :=
  (List.range curvature.length).map (adjustAt curvature lookahead)

theorem base_speed_nonneg (c : ℚ) : 0 ≤ base_speed c := by
  unfold base_speed
  dsimp only
  split <;> norm_num
  split <;> norm_num
  split <;> norm_num

theorem base_speed_le (c : ℚ) : base_speed c ≤ 10.50 := by
  unfold base_speed
  dsimp only
  split <;> norm_num
  split <;> norm_num
  split <;> norm_num

theorem adjustAt_le (curvature : List ℚ) (lookahead i : Nat) :
    adjustAt curvature lookahead i ≤ 10.50 := by
  unfold adjustAt
  dsimp only
  split
  · calc base_speed (curvature.getD i 0) * 0.95
        ≤ 10.50 * 0.95 := by
          have := base_speed_le (curvature.getD i 0)
          nlinarith
    _ ≤ 10.50 := by norm_num
  · split
    · exact min_le_right _ _
    · exact base_speed_le _

/-- C4: every speed value produced by the profiler's adjustment loop is at most
10.50 m/s; in particular the exit-acceleration branch (`base * 1.10`) is capped
at 10.50 by the explicit `min`. -/
theorem speeds_le_cap (curvature : List ℚ) (lookahead : Nat) (v : ℚ)
    (hv : v ∈ adjusted_speed curvature lookahead) : v ≤ 10.50 := by
  unfold adjusted_speed at hv
  rcases List.mem_map.1 hv with ⟨i, _, rfl⟩
  exact adjustAt_le curvature lookahead i

/-- Witness for C4 at a concrete curvature profile: a path whose curvature
rises then falls exercises both adjustment branches, and the produced speeds
are all ≤ 10.50. -/
theorem speeds_le_cap_witness :
    (10.50 : ℚ) ∈ adjusted_speed [0, 0, 0, 0, 0, 0] 5 ∧ (10.50 : ℚ) ≤ 10.50 := by
  have h0 : adjustAt [0, 0, 0, 0, 0, 0] 5 0 = 10.50 := by
    norm_num [adjustAt, base_speed]
  have hr : (0 : ℕ) ∈ List.range ([0, 0, 0, 0, 0, 0] : List ℚ).length := by simp
  have hmem : (10.50 : ℚ) ∈ adjusted_speed [0, 0, 0, 0, 0, 0] 5 := by
    simpa [adjusted_speed, h0] using
      List.mem_map_of_mem (adjustAt [0, 0, 0, 0, 0, 0] 5) hr
  exact ⟨hmem, speeds_le_cap [0, 0, 0, 0, 0, 0] 5 10.50 hmem⟩

/-! ## lanelet2_bounds_to_csv.py — data model

Python `dict`s (insertion-ordered, unique keys) are modelled as association
lists with first-match lookup; node/way/relation identifiers are the strings
the source keeps them as. -/

def lookupA {α β : Type} [DecidableEq α] (k : α) : List (α × β) → Option β
  | [] => none
  | (k', v) :: t => if k = k' then some v else lookupA k t

structure NodeInfo where
  lat : ℚ
  lon : ℚ
  local_x : Option ℚ
  local_y : Option ℚ
  deriving DecidableEq

structure WayData where
  node_ids : List String
  tags : List (String × String)
  deriving DecidableEq

structure RelationMember where
  type : String
  ref : String
  role : String
  deriving DecidableEq

structure RelationData where
  members : List RelationMember
  tags : List (String × String)
  deriving DecidableEq

/-- The parsed-map state of an `OSMExtractor` after `parse_nodes`,
`parse_ways`, `parse_relations`. -/
structure Extractor where
  nodes : List (String × NodeInfo)
  ways : List (String × WayData)
  relations : List (String × RelationData)
  deriving DecidableEq

/-- `(lat, lon, local_x, local_y)` as produced by `_coords_of_way`. -/
def Coord : Type := ℚ × ℚ × Option ℚ × Option ℚ

instance : DecidableEq Coord := by unfold Coord; infer_instance

/-- `OSMExtractor._coords_of_way`: resolve a way id to its node coordinate
list, returning `[]` for an unknown way and skipping node ids missing from
the node mapping. -/
def coords_of_way (E : Extractor) (way_id : String) : List Coord :=
  match lookupA way_id E.ways with
  | none => []
  | some way =>
      way.node_ids.filterMap fun nid =>
        (lookupA nid E.nodes).map fun nd => (nd.lat, nd.lon, nd.local_x, nd.local_y)

/-- `OSMExtractor.iter_lanelet_relations`: the relations tagged
`type="lanelet"`, in mapping order. -/
def iter_lanelet_relations (E : Extractor) : List (String × RelationData) :=
  E.relations.filter fun p => lookupA "type" p.2.tags = some "lanelet"

/-- The `role2way.setdefault` scan of `extract_by_relations`: the first
member of the relation with member-type `"way"` and the given role (the
queried roles are exactly `left` / `right` / `centerline`). -/
def firstWayFor (rel : RelationData) (role : String) : Option String :=
  (rel.members.find? fun m => m.type = "way" ∧ m.role = role).map (·.ref)

/-- One entry of a role's result list: `(relation_or_way_id, index, coord)`. -/
def Entry : Type := String × Nat × Coord

instance : DecidableEq Entry := by unfold Entry; infer_instance

def concatMap {α β : Type} (f : α → List β) : List α → List β
  | [] => []
  | a :: t => f a ++ concatMap f t

/-- The contribution of one lanelet relation to one role in
`extract_by_relations` (`if not wid: continue` also skips an empty ref). -/
def relRolePoints (E : Extractor) (rid : String) (rel : RelationData)
    (role : String) : List Entry :=
  match firstWayFor rel role with
  | none => []
  | some wid =>
      if wid = "" then []
      else (coords_of_way E wid).enum.map fun p => (rid, p.1, p.2)

/-- One role's result list of `extract_by_relations`: the Python loop appends
each relation's contribution in relation-mapping order, i.e. concatenation. -/
def rolePoints (E : Extractor) (role : String) : List Entry :=
  concatMap (fun p => relRolePoints E p.1 p.2 role) (iter_lanelet_relations E)

structure RoleResults where
  left : List Entry
  right : List Entry
  centerline : List Entry
  deriving DecidableEq

/-- `OSMExtractor.extract_by_relations` (primary strategy). -/
def extract_by_relations (E : Extractor) : RoleResults :=
  ⟨rolePoints E "left", rolePoints E "right", rolePoints E "centerline"⟩

/-- The fixed `subtype → role` table of `extract_by_way_subtype`. -/
def map_subtype_to_role (st : String) : Option String :=
  if st = "left_lane_bound" then some "left"
  else if st = "right_lane_bound" then some "right"
  else if st = "center_lane_line" then some "centerline"
  else none

/-- `way.tags.get('subtype') or way.tags.get('lane_subtype') or ''`:
first truthy (present and non-empty) value, else the empty string. -/
def waySubtype (way : WayData) : String :=
  match lookupA "subtype" way.tags with
  | some s => if s ≠ "" then s else
      match lookupA "lane_subtype" way.tags with
      | some s2 => if s2 ≠ "" then s2 else ""
      | none => ""
  | none =>
      match lookupA "lane_subtype" way.tags with
      | some s2 => if s2 ≠ "" then s2 else ""
      | none => ""

/-- One role's result list of `extract_by_way_subtype`: the ways whose mapped
subtype is this role, in way-mapping order, with the way id standing in for
the lanelet id. -/
def subtypeRolePoints (E : Extractor) (role : String) : List Entry :=
  concatMap
    (fun p =>
      if map_subtype_to_role (waySubtype p.2) = some role then
        (coords_of_way E p.1).enum.map fun q => (p.1, q.1, q.2)
      else [])
    E.ways

/-- `OSMExtractor.extract_by_way_subtype` (fallback strategy). -/
def extract_by_way_subtype (E : Extractor) : RoleResults :=
  ⟨subtypeRolePoints E "left", subtypeRolePoints E "right",
    subtypeRolePoints E "centerline"⟩

/-- `total_rel = sum(len(v) for v in rel_res.values())`. -/
def totalPoints (r : RoleResults) : Nat :=
  r.left.length + r.right.length + r.centerline.length

/-- `OSMExtractor.extract_lane_bounds`: primary results if their total point
count is positive, else the way-subtype fallback. -/
def extract_lane_bounds (E : Extractor) : RoleResults :=
  let rel_res := extract_by_relations E
  if 0 < totalPoints rel_res then rel_res else extract_by_way_subtype E

/-- C1: `extract_lane_bounds` returns the relation-based primary results
whenever their total point count over the three roles is positive (with no
per-role fallback), and returns the way-subtype fallback results exactly when
that total is zero. -/
theorem extract_lane_bounds_selection (E : Extractor) :
    (0 < totalPoints (extract_by_relations E) →
      extract_lane_bounds E = extract_by_relations E) ∧
    (totalPoints (extract_by_relations E) = 0 →
      extract_lane_bounds E = extract_by_way_subtype E) := by
  constructor
  · intro h
    unfold extract_lane_bounds
    simp [h]
  · intro h
    unfold extract_lane_bounds
    simp [h]

/-- A one-relation, one-way, one-node map used as a concrete witness input. -/
def sampleExtractor : Extractor :=
  { nodes := [("1", ⟨35, 139, none, none⟩)]
    ways := [("10", ⟨["1"], []⟩)]
    relations := [("100", ⟨[⟨"way", "10", "left"⟩], [("type", "lanelet")]⟩)] }

/-- Witness for C1: on `sampleExtractor` the primary strategy yields one
point, so `extract_lane_bounds` returns the primary results. -/
theorem extract_lane_bounds_selection_witness :
    extract_lane_bounds sampleExtractor = extract_by_relations sampleExtractor :=
  (extract_lane_bounds_selection sampleExtractor).1 (by decide)

/-- The node count of the first way referenced for a role by a relation
(0 when the relation has no such member or the way is unknown). -/
def firstWayNodeCount (E : Extractor) (rel : RelationData) (role : String) : Nat :=
  match firstWayFor rel role with
  | none => 0
  | some wid =>
      match lookupA wid E.ways with
      | none => 0
      | some w => w.node_ids.length

theorem length_concatMap {α β : Type} (f : α → List β) (l : List α) :
    (concatMap f l).length = (l.map fun a => (f a).length).sum := by
  induction l with
  | nil => rfl
  | cons a t ih => simp [concatMap, ih]

theorem length_filterMap_of_isSome {α β : Type} (f : α → Option β) (l : List α)
    (h : ∀ a ∈ l, (f a).isSome = true) : (l.filterMap f).length = l.length := by
  induction l with
  | nil => rfl
  | cons a t ih =>
    have ha := h a (by simp)
    rcases Option.isSome_iff_exists.1 ha with ⟨b, hb⟩
    simp [List.filterMap_cons, hb, ih fun x hx => h x (by simp [hx])]

theorem coords_of_way_length (E : Extractor) (wid : String) (w : WayData)
    (hw : lookupA wid E.ways = some w)
    (hn : ∀ nid ∈ w.node_ids, (lookupA nid E.nodes).isSome = true) :
    (coords_of_way E wid).length = w.node_ids.length := by
  unfold coords_of_way
  rw [hw]
  exact length_filterMap_of_isSome _ _ fun nid hnid => by
    simpa [Option.isSome_map] using hn nid hnid

/-- C2: when at least one lanelet relation has a way member in one of the
three roles, the primary extraction resolves only the first member per role
per relation (`firstWayFor` is a `find?`), and the output point count for a
role is the sum over lanelet relations of the node count of that first
referenced way — provided each such way exists with a non-empty id and all
its node ids are present in the node mapping. -/
theorem rolePoints_length (E : Extractor) (role : String)
    (_hne : ∃ p ∈ iter_lanelet_relations E, ∃ m ∈ p.2.members,
      m.type = "way" ∧ (m.role = "left" ∨ m.role = "right" ∨ m.role = "centerline"))
    (hres : ∀ p ∈ iter_lanelet_relations E, ∀ wid,
      firstWayFor p.2 role = some wid →
        wid ≠ "" ∧ ∃ w, lookupA wid E.ways = some w ∧
          ∀ nid ∈ w.node_ids, (lookupA nid E.nodes).isSome = true) :
    (rolePoints E role).length =
      ((iter_lanelet_relations E).map fun p => firstWayNodeCount E p.2 role).sum := by
  unfold rolePoints
  rw [length_concatMap]
  congr 1
  apply List.map_congr_left
  intro p hp
  rcases hres p hp with hres_p
  unfold relRolePoints firstWayNodeCount
  cases hfw : firstWayFor p.2 role with
  | none => rfl
  | some wid =>
    rcases hres_p wid hfw with ⟨hwid, w, hw, hn⟩
    simp only [hwid, if_false, hw, List.length_map, List.enum_length]
    exact coords_of_way_length E wid w hw hn

/-- Witness for C2 on `sampleExtractor`: one lanelet relation, whose first
`left` member is way `"10"` with a single known node, gives one left point. -/
theorem rolePoints_length_witness :
    (rolePoints sampleExtractor "left").length =
      ((iter_lanelet_relations sampleExtractor).map
        fun p => firstWayNodeCount sampleExtractor p.2 "left").sum :=
  rolePoints_length sampleExtractor "left"
    ⟨("100", ⟨[⟨"way", "10", "left"⟩], [("type", "lanelet")]⟩), by decide,
      ⟨"way", "10", "left"⟩, by decide, by decide⟩
    (by decide)

/-! ## lanelet2_bounds_to_csv.py — coordinate projector

`OSMExtractor.latlon_to_xy` has two branches: the pyproj transverse-projection
transform (when available) and the equirectangular fallback. `math.cos`, the
degree→radian factor (`π/180`), and the pyproj transformer are abstract
function parameters, so both branches keep the exact formula structure of the
source while staying computable. -/

/-- The equirectangular fallback:
`x = R·cos((φ1+φ2)·0.5)·Δλ`, `y = R·Δφ`, with `R = 6371000`. -/
def latlon_to_xy_equirect (cosf : ℚ → ℚ) (degToRad : ℚ)
    (lat0 lon0 lat lon : ℚ) : ℚ × ℚ :=
  let R : ℚ := 6371000
  let phi1 := lat0 * degToRad
  let phi2 := lat * degToRad
  let dphi := (lat - lat0) * degToRad
  let dlambda := (lon - lon0) * degToRad
  (R * cosf ((phi1 + phi2) * 0.5) * dlambda, R * dphi)

/-- The pyproj branch: transform the query point and the origin
(`always_xy`, so `(lon, lat)` argument order) and return the difference. -/
def latlon_to_xy_projected (transform : ℚ × ℚ → ℚ × ℚ)
    (lat0 lon0 lat lon : ℚ) : ℚ × ℚ :=
  let p := transform (lon, lat)
  let p0 := transform (lon0, lat0)
  (p.1 - p0.1, p.2 - p0.2)

/-- `OSMExtractor.latlon_to_xy` with a resolved origin: the transformer branch
when one was constructed, else the equirectangular fallback. -/
def latlon_to_xy (hasTransformer : Bool) (transform : ℚ × ℚ → ℚ × ℚ)
    (cosf : ℚ → ℚ) (degToRad : ℚ) (origin : ℚ × ℚ) (lat lon : ℚ) : ℚ × ℚ :=
  if hasTransformer then
    latlon_to_xy_projected transform origin.1 origin.2 lat lon
  else
    latlon_to_xy_equirect cosf degToRad origin.1 origin.2 lat lon

/-- C5: for every origin, projecting the origin point itself yields exactly
`(0, 0)` — in the projected-transform branch (the transform of the point
cancels the transform of the origin) and in the equirectangular branch
(both `Δφ` and `Δλ` vanish), for any transformer, cosine, and radian factor. -/
theorem latlon_to_xy_origin (hasTransformer : Bool)
    (transform : ℚ × ℚ → ℚ × ℚ) (cosf : ℚ → ℚ) (degToRad : ℚ)
    (lat0 lon0 : ℚ) :
    latlon_to_xy hasTransformer transform cosf degToRad (lat0, lon0) lat0 lon0
      = (0, 0) := by
  cases hasTransformer with
  | false =>
    unfold latlon_to_xy latlon_to_xy_equirect
    simp
  | true =>
    unfold latlon_to_xy latlon_to_xy_projected
    simp

/-! ## lanelet2_bounds_to_csv.py — `parse_nodes`

XML `<node>` elements are modelled by their attributes and `<tag>` children;
Python's `float()` is an abstract parameter `pf : String → Option ℚ`
(`none` = `ValueError`). Python truthiness makes a missing attribute and an
empty attribute string both fail the `if not (nid and lat and lon)` guard. -/

structure XmlTag where
  k : Option String
  v : Option String
  deriving DecidableEq

structure XmlNodeEl where
  id : Option String
  lat : Option String
  lon : Option String
  tags : List XmlTag
  deriving DecidableEq

/-- The `local_x`/`local_y` scan of `parse_nodes`: the accumulator keeps the
last successfully parsed value of a tag with the given key; a tag whose value
fails to parse leaves the accumulator unchanged (`except ValueError: pass`). -/
def scanLocalAux (pf : String → Option ℚ) (key : String) (acc : Option ℚ) :
    List XmlTag → Option ℚ
  | [] => acc
  | t :: ts =>
      match t.k, t.v with
      | some k, some v =>
          if k = key then
            match pf v with
            | some q => scanLocalAux pf key (some q) ts
            | none => scanLocalAux pf key acc ts
          else scanLocalAux pf key acc ts
      | _, _ => scanLocalAux pf key acc ts

def scanLocalTag (pf : String → Option ℚ) (key : String) (tags : List XmlTag) :
    Option ℚ :=
  scanLocalAux pf key none tags

/-- The body of `parse_nodes` for one `<node>` element: `none` means the
element is skipped (`continue`), `some (nid, info)` means
`self.nodes[nid] = info`. -/
def parseNode (pf : String → Option ℚ) (n : XmlNodeEl) :
    Option (String × NodeInfo) :=
  match n.id, n.lat, n.lon with
  | some nid, some lat, some lon =>
      if nid = "" ∨ lat = "" ∨ lon = "" then none
      else
        match pf lat, pf lon with
        | some lat_f, some lon_f =>
            some (nid, ⟨lat_f, lon_f, scanLocalTag pf "local_x" n.tags,
              scanLocalTag pf "local_y" n.tags⟩)
        | _, _ => none
  | _, _, _ => none

/-- `OSMExtractor.parse_nodes` over a document's `<node>` elements (entries
in document order; the Python dict overwrites on a duplicated id, which no
claim touches). -/
def parse_nodes (pf : String → Option ℚ) (doc : List XmlNodeEl) :
    List (String × NodeInfo) :=
  doc.filterMap (parseNode pf)

theorem scanLocalAux_none (pf : String → Option ℚ) (key : String)
    (tags : List XmlTag)
    (h : ∀ t ∈ tags, t.k = some key → ∀ v, t.v = some v → pf v = none) :
    scanLocalAux pf key none tags = none := by
  induction tags with
  | nil => rfl
  | cons t ts ih =>
    have hts : ∀ t' ∈ ts, t'.k = some key → ∀ v, t'.v = some v → pf v = none :=
      fun t' ht' => h t' (by simp [ht'])
    unfold scanLocalAux
    cases hk : t.k with
    | none => exact ih hts
    | some k =>
      cases hv : t.v with
      | none => exact ih hts
      | some v =>
        by_cases hkey : k = key
        · have := h t (by simp) (hkey ▸ hk) v hv
          simp [hkey, this, ih hts]
        · simp [hkey, ih hts]

/-- C7: a `<node>` lacking an id, latitude, or longitude attribute, or whose
latitude or longitude text fails numeric parsing, is omitted from the parsed
node mapping (parsing continues, no exception — every function here is
total); and when a node is kept, `local_x`/`local_y` whose tag values all
fail numeric parsing come out as `none`, never as an error. -/
theorem parse_nodes_error_handling :
    (∀ (pf : String → Option ℚ) (pre post : List XmlNodeEl) (n : XmlNodeEl),
        (n.id = none ∨ n.lat = none ∨ n.lon = none ∨
          (∃ s, n.lat = some s ∧ pf s = none) ∨
          (∃ s, n.lon = some s ∧ pf s = none)) →
        parse_nodes pf (pre ++ n :: post) = parse_nodes pf (pre ++ post)) ∧
    (∀ (pf : String → Option ℚ) (n : XmlNodeEl) (nid : String)
        (info : NodeInfo), parseNode pf n = some (nid, info) →
        ((∀ t ∈ n.tags, t.k = some "local_x" → ∀ v, t.v = some v → pf v = none) →
          info.local_x = none) ∧
        ((∀ t ∈ n.tags, t.k = some "local_y" → ∀ v, t.v = some v → pf v = none) →
          info.local_y = none)) := by
  have hnone : ∀ (pf : String → Option ℚ) (n : XmlNodeEl),
      (n.id = none ∨ n.lat = none ∨ n.lon = none ∨
        (∃ s, n.lat = some s ∧ pf s = none) ∨
        (∃ s, n.lon = some s ∧ pf s = none)) →
      parseNode pf n = none := by
    intro pf n h
    unfold parseNode
    cases hid : n.id with
    | none => rfl
    | some nid =>
      cases hlat : n.lat with
      | none => rfl
      | some lat =>
        cases hlon : n.lon with
        | none => rfl
        | some lon =>
          rcases h with h | h | h | ⟨s, hs, hps⟩ | ⟨s, hs, hps⟩
          · exact absurd (hid ▸ h) (by simp)
          · exact absurd (hlat ▸ h) (by simp)
          · exact absurd (hlon ▸ h) (by simp)
          · have : pf lat = none := by
              have : s = lat := by rw [hlat] at hs; exact (Option.some_inj.1 hs).symm
              exact this ▸ hps
            by_cases hguard : nid = "" ∨ lat = "" ∨ lon = ""
            · simp [hguard]
            · simp [hguard, this]
          · have : pf lon = none := by
              have : s = lon := by rw [hlon] at hs; exact (Option.some_inj.1 hs).symm
              exact this ▸ hps
            by_cases hguard : nid = "" ∨ lat = "" ∨ lon = ""
            · simp [hguard]
            · cases pf lat <;> simp [hguard, this]
  constructor
  · intro pf pre post n h
    simp [parse_nodes, List.filterMap_append, List.filterMap_cons, hnone pf n h]
  · intro pf n nid info h
    unfold parseNode at h
    cases hid : n.id with
    | none => rw [hid] at h; exact absurd h (by simp)
    | some i =>
      cases hlat : n.lat with
      | none => rw [hid, hlat] at h; exact absurd h (by simp)
      | some lat =>
        cases hlon : n.lon with
        | none => rw [hid, hlat, hlon] at h; exact absurd h (by simp)
        | some lon =>
          rw [hid, hlat, hlon] at h
          dsimp only at h
          by_cases hguard : i = "" ∨ lat = "" ∨ lon = ""
          · rw [if_pos hguard] at h; exact absurd h (by simp)
          · rw [if_neg hguard] at h
            cases hpl : pf lat with
            | none => rw [hpl] at h; exact absurd h (by simp)
            | some lat_f =>
              cases hpo : pf lon with
              | none => rw [hpl, hpo] at h; exact absurd h (by simp)
              | some lon_f =>
                rw [hpl, hpo, Option.some_inj] at h
                have hinfo : info = ⟨lat_f, lon_f, scanLocalTag pf "local_x" n.tags,
                    scanLocalTag pf "local_y" n.tags⟩ := by
                  have := congrArg Prod.snd h
                  simpa using this.symm
                constructor
                · intro hx
                  rw [hinfo]
                  exact scanLocalAux_none pf "local_x" n.tags hx
                · intro hy
                  rw [hinfo]
                  exact scanLocalAux_none pf "local_y" n.tags hy

/-- Witness for C7: a node whose latitude text fails numeric parsing is
dropped from the mapping, and a kept node whose only `local_x` tag value
fails numeric parsing gets `local_x = none`. -/
theorem parse_nodes_error_handling_witness :
    parse_nodes (fun s => if s = "bad" then none else some 1)
        [⟨some "5", some "bad", some "1.0", []⟩] =
      parse_nodes (fun s => if s = "bad" then none else some 1) [] ∧
    (⟨(1 : ℚ), 1, none, none⟩ : NodeInfo).local_x = none := by
  constructor
  · exact parse_nodes_error_handling.1 (fun s => if s = "bad" then none else some 1)
      [] [] ⟨some "5", some "bad", some "1.0", []⟩
      (Or.inr (Or.inr (Or.inr (Or.inl ⟨"bad", rfl, by simp⟩))))
  · exact (parse_nodes_error_handling.2 (fun s => if s = "bad" then none else some 1)
      ⟨some "5", some "1.0", some "1.0", [⟨some "local_x", some "bad"⟩]⟩ "5"
      ⟨1, 1, none, none⟩ (by simp [parseNode, scanLocalTag, scanLocalAux])).1
      (by intro t ht hk v hv; simp at ht; subst ht; simp at hv; subst hv; simp)

/-! ## osm_centerline_to_csv.py — `chain_centerlines`

Node ids are the Python ints (`ℤ`); `way_nodes` is the id → node-list dict as
an association list. The `used` flags array is kept zipped with the (never
mutated) `sequences` list, and the `while progress` loop is run on fuel
`rest.length + 1`: every successful pass flips exactly one `used` flag from
`false` to `true` and there are only `rest.length` of them, so the loop always
reaches the no-progress exit of the source within the fuel. -/

/-- The usable input sequences: `way_nodes.get(wid)` for each centerline way
id, kept when present with at least 2 nodes (`if seq and len(seq) >= 2`). -/
def buildSequences (way_nodes : List (Int × List Int)) (ids : List Int) :
    List (List Int) :=
  ids.filterMap fun wid =>
    match lookupA wid way_nodes with
    | some seq => if 2 ≤ seq.length then some seq else none
    | none => none

/-- One tail-extension pass (`for i, seq in enumerate(sequences)` with
`last = chained[-1]`): the first unused sequence whose head (append its tail)
or tail (append its reversed front) equals `last`; returns the appended part
and the state with that sequence marked used. -/
def tryExtendTail (last : Int) :
    List (List Int × Bool) → Option (List Int × List (List Int × Bool))
  | [] => none
  | (seq, u) :: rest =>
      if u then
        match tryExtendTail last rest with
        | some (ext, rest') => some (ext, (seq, u) :: rest')
        | none => none
      else if seq.head? = some last then
        some (seq.tail, (seq, true) :: rest)
      else if seq.getLast? = some last then
        some (seq.dropLast.reverse, (seq, true) :: rest)
      else
        match tryExtendTail last rest with
        | some (ext, rest') => some (ext, (seq, u) :: rest')
        | none => none

/-- One head-extension pass (`head = chained[0]`): the first unused sequence
whose tail (prepend its front) or head (prepend its reversed tail) equals
`head`; returns the prepended part and the updated state. -/
def tryExtendHead (hd : Int) :
    List (List Int × Bool) → Option (List Int × List (List Int × Bool))
  | [] => none
  | (seq, u) :: rest =>
      if u then
        match tryExtendHead hd rest with
        | some (pre, rest') => some (pre, (seq, u) :: rest')
        | none => none
      else if seq.getLast? = some hd then
        some (seq.dropLast, (seq, true) :: rest)
      else if seq.head? = some hd then
        some (seq.tail.reverse, (seq, true) :: rest)
      else
        match tryExtendHead hd rest with
        | some (pre, rest') => some (pre, (seq, u) :: rest')
        | none => none

/-- One iteration of the `while progress` loop: try a tail extension, else a
head extension, else report no progress. -/
def chainStep (chained : List Int) (st : List (List Int × Bool)) :
    Option (List Int × List (List Int × Bool)) :=
  match chained.getLast? with
  | none => none
  | some last =>
      match tryExtendTail last st with
      | some (ext, st') => some (chained ++ ext, st')
      | none =>
          match chained.head? with
          | none => none
          | some hd =>
              match tryExtendHead hd st with
              | some (pre, st') => some (pre ++ chained, st')
              | none => none

/-- The `while progress` loop on fuel (see the section comment). -/
def chainLoop : Nat → List Int → List (List Int × Bool) →
    List Int × List (List Int × Bool)
  | 0, chained, st => (chained, st)
  | fuel + 1, chained, st =>
      match chainStep chained st with
      | some (c', st') => chainLoop fuel c' st'
      | none => (chained, st)

/-- The best-effort final pass: every still-unused sequence is appended to the
tail, joining on a shared endpoint when one coincides, else concatenated
raw. -/
def forceAppend (chained : List Int) : List (List Int × Bool) → List Int
  | [] => chained
  | (seq, u) :: rest =>
      if u then forceAppend chained rest
      else if chained.getLast? = seq.head? then
        forceAppend (chained ++ seq.tail) rest
      else if chained.getLast? = seq.getLast? then
        forceAppend (chained ++ seq.dropLast.reverse) rest
      else forceAppend (chained ++ seq) rest

/-- The final consecutive-duplicate collapse
(`dedup = [chained[0]]; for nid in chained[1:]: ...`). -/
def dedupGo (last : Int) : List Int → List Int
  | [] => []
  | n :: t => if n ≠ last then n :: dedupGo n t else dedupGo last t

def dedupAdjacent : List Int → List Int
  | [] => []
  | h :: t => h :: dedupGo h t

/-- Seed with the first usable sequence, run the extension loop, force-append
the leftovers. -/
def chainAll (s0 : List Int) (rest : List (List Int)) : List Int :=
  let res := chainLoop (rest.length + 1) s0 (rest.map fun s => (s, false))
  forceAppend res.1 res.2

/-- `chain_centerlines`; `none` models the
`RuntimeError` raised when no usable sequence exists. -/
def chain_centerlines (way_nodes : List (Int × List Int))
    (centerline_way_ids : List Int) : Option (List Int) :=
  match buildSequences way_nodes centerline_way_ids with
  | [] => none
  | s0 :: rest => some (dedupAdjacent (chainAll s0 rest))

/-! ## osm_centerline_to_csv.py — `write_csv` -/

/-- The fixed message of the `RuntimeError` raised on fewer than 2 valid
points ("fewer than 2 valid (x,y) points, cannot write the CSV") — note it
contains no count. -/
def errMsgInsufficient : String :=
  "有効な (x,y) 点が2点未満のため、CSVを出力できません。"

def TrajRow : Type := ℚ × ℚ × ℚ × ℚ × ℚ × ℚ × ℚ × ℚ

/-- `_yaw_from`: `atan2(dy, dx)`, with `math.atan2` abstract. -/
def yawFrom (atan2f : ℚ → ℚ → ℚ) (p0 p1 : ℚ × ℚ) : ℚ :=
  atan2f (p1.2 - p0.2) (p1.1 - p0.1)

/-- `_quat_from_yaw`: `(0, 0, sin(yaw/2), cos(yaw/2))`. -/
def quatFromYaw (sinf cosf : ℚ → ℚ) (yaw : ℚ) : ℚ × ℚ × ℚ × ℚ :=
  (0, 0, sinf (0.5 * yaw), cosf (0.5 * yaw))

/-- The filter at the top of `write_csv`:
`[(nid, node_xy[nid]) for nid in node_ids if nid in node_xy]`. -/
def validPts (node_xy : List (Int × (ℚ × ℚ))) (node_ids : List Int) :
    List (Int × (ℚ × ℚ)) :=
  node_ids.filterMap fun nid => (lookupA nid node_xy).map fun xy => (nid, xy)

/-- `write_csv` (the rows written, or the raised error): fails with the fixed
message when fewer than 2 node ids resolve; otherwise one row per valid point,
yaw from the segment to the next point for the first point and from the
previous point after that (all indexing is in range since `pts.length ≥ 2`). -/
def write_csv (atan2f : ℚ → ℚ → ℚ) (sinf cosf : ℚ → ℚ)
    (node_xy : List (Int × (ℚ × ℚ))) (node_ids : List Int)
    (speed_kmh z_value : ℚ) : Except String (List TrajRow) :=
  let pts := validPts node_xy node_ids
  if pts.length < 2 then Except.error errMsgInsufficient
  else
    let speed_mps := speed_kmh / 3.6
    Except.ok ((List.range pts.length).map fun i =>
      let p := (pts.getD i (0, (0, 0))).2
      let yaw :=
        if i = 0 then yawFrom atan2f p (pts.getD (i + 1) (0, (0, 0))).2
        else yawFrom atan2f (pts.getD (i - 1) (0, (0, 0))).2 p
      let q := quatFromYaw sinf cosf yaw
      (p.1, p.2, z_value, q.1, q.2.1, q.2.2.1, q.2.2.2, speed_mps))

/-! ## Stitcher lemmas and claims -/

theorem mem_of_mem_dedupGo (t : List Int) :
    ∀ last x, x ∈ dedupGo last t → x ∈ t := by
  induction t with
  | nil => intro last x h; simp [dedupGo] at h
  | cons n t ih =>
    intro last x h
    unfold dedupGo at h
    by_cases hn : n ≠ last
    · rw [if_pos hn] at h
      rcases List.mem_cons.1 h with h | h
      · simp [h]
      · exact List.mem_cons_of_mem _ (ih n x h)
    · rw [if_neg hn] at h
      exact List.mem_cons_of_mem _ (ih last x h)

theorem mem_dedupGo_of_mem (t : List Int) :
    ∀ last x, x ∈ t → x = last ∨ x ∈ dedupGo last t := by
  induction t with
  | nil => intro last x h; simp at h
  | cons n t ih =>
    intro last x h
    unfold dedupGo
    by_cases hn : n ≠ last
    · rw [if_pos hn]
      rcases List.mem_cons.1 h with rfl | h
      · exact Or.inr (List.mem_cons_self _ _)
      · rcases ih n x h with rfl | h
        · exact Or.inr (List.mem_cons_self _ _)
        · exact Or.inr (List.mem_cons_of_mem _ h)
    · rw [if_neg hn]
      push_neg at hn
      rcases List.mem_cons.1 h with rfl | h
      · exact Or.inl hn
      · exact ih last x h

theorem mem_dedupAdjacent (l : List Int) (x : Int) :
    x ∈ dedupAdjacent l ↔ x ∈ l := by
  cases l with
  | nil => simp [dedupAdjacent]
  | cons h t =>
    simp only [dedupAdjacent, List.mem_cons]
    constructor
    · rintro (rfl | hx)
      · exact Or.inl rfl
      · exact Or.inr (mem_of_mem_dedupGo t h x hx)
    · rintro (rfl | hx)
      · exact Or.inl rfl
      · rcases mem_dedupGo_of_mem t h x hx with rfl | hh
        · exact Or.inl rfl
        · exact Or.inr hh

theorem chain'_dedupGo (t : List Int) :
    ∀ last, List.Chain' (· ≠ ·) (last :: dedupGo last t) := by
  induction t with
  | nil => intro last; simp [dedupGo]
  | cons n t ih =>
    intro last
    unfold dedupGo
    by_cases hn : n ≠ last
    · rw [if_pos hn]
      exact List.chain'_cons.2 ⟨Ne.symm hn, ih n⟩
    · rw [if_neg hn]
      exact ih last

theorem chain'_dedupAdjacent (l : List Int) :
    List.Chain' (· ≠ ·) (dedupAdjacent l) := by
  cases l with
  | nil => simp [dedupAdjacent]
  | cons h t => exact chain'_dedupGo t h

theorem dedupGo_eq_of_chain' (t : List Int) :
    ∀ last, List.Chain' (· ≠ ·) (last :: t) → dedupGo last t = t := by
  induction t with
  | nil => intro last _; rfl
  | cons n t ih =>
    intro last h
    rw [List.chain'_cons] at h
    unfold dedupGo
    rw [if_pos (Ne.symm h.1), ih n h.2]

theorem dedupAdjacent_eq_of_chain' (l : List Int)
    (h : List.Chain' (· ≠ ·) l) : dedupAdjacent l = l := by
  cases l with
  | nil => rfl
  | cons hd t =>
    unfold dedupAdjacent
    dsimp only
    rw [dedupGo_eq_of_chain' t hd h]

/-- C6: whenever the stitcher succeeds, its output has no two adjacent
identical node identifiers — the final consecutive-duplicate collapse
guarantees it. -/
theorem chain_centerlines_no_adjacent_dup (way_nodes : List (Int × List Int))
    (ids out : List Int) (h : chain_centerlines way_nodes ids = some out) :
    List.Chain' (· ≠ ·) out := by
  unfold chain_centerlines at h
  cases hbs : buildSequences way_nodes ids with
  | nil => rw [hbs] at h; exact absurd h (by simp)
  | cons s0 rest =>
    rw [hbs] at h
    dsimp only at h
    rw [Option.some_inj] at h
    rw [← h]
    exact chain'_dedupAdjacent _

/-- Witness for C6 on the two-way input `[1,2] ++ [2,3]`. -/
theorem chain_centerlines_no_adjacent_dup_witness :
    List.Chain' (· ≠ ·) [(1 : Int), 2, 3] :=
  chain_centerlines_no_adjacent_dup [(1, [1, 2]), (2, [2, 3])] [1, 2] [1, 2, 3]
    (by decide)

theorem chainStep_nil_st (chained : List Int) : chainStep chained [] = none := by
  unfold chainStep
  cases chained.getLast? with
  | none => rfl
  | some last =>
    dsimp only [tryExtendTail]
    cases chained.head? <;> rfl

/-- C9: stitching a single already-contiguous sequence (length ≥ 2, no two
adjacent identical ids) returns it unchanged. -/
theorem chain_centerlines_single (wid : Int) (s : List Int)
    (h2 : 2 ≤ s.length) (hchain : List.Chain' (· ≠ ·) s) :
    chain_centerlines [(wid, s)] [wid] = some s := by
  have hbs : buildSequences [(wid, s)] [wid] = [s] := by
    simp [buildSequences, lookupA, h2]
  unfold chain_centerlines
  rw [hbs]
  dsimp only
  unfold chainAll
  simp only [List.length_nil, List.map_nil]
  have hloop : chainLoop (0 + 1) s [] = (s, []) := by
    unfold chainLoop
    rw [chainStep_nil_st]
  rw [hloop]
  dsimp only [forceAppend]
  rw [dedupAdjacent_eq_of_chain' s hchain]

/-- Witness for C9 at the concrete sequence `[3, 4]`. -/
theorem chain_centerlines_single_witness :
    chain_centerlines [((7 : Int), [3, 4])] [7] = some [3, 4] :=
  chain_centerlines_single 7 [3, 4] (by decide)
    (List.chain'_cons.2 ⟨by decide, List.chain'_singleton 4⟩)

theorem chainLoop_succ (fuel : Nat) (chained : List Int)
    (st : List (List Int × Bool)) :
    chainLoop (fuel + 1) chained st =
      match chainStep chained st with
      | some (c', st') => chainLoop fuel c' st'
      | none => (chained, st) := rfl

/-- C3: stitching exactly `[A,B,C]` and `[C,D,E]` (pairwise distinct ids)
yields `[A,B,C,D,E]`, the shared endpoint `C` occurring once: the second
sequence's head matches the tail of the seeded first, so its tail `[D,E]` is
appended, and the distinctness keeps the duplicate collapse a no-op. -/
theorem chain_centerlines_pair (a b c d e : Int)
    (hab : a ≠ b) (_hac : a ≠ c) (_had : a ≠ d) (_hae : a ≠ e)
    (hbc : b ≠ c) (_hbd : b ≠ d) (_hbe : b ≠ e)
    (hcd : c ≠ d) (_hce : c ≠ e) (hde : d ≠ e) :
    chain_centerlines [(1, [a, b, c]), (2, [c, d, e])] [1, 2]
      = some [a, b, c, d, e] := by
  have hbs : buildSequences [(1, [a, b, c]), (2, [c, d, e])] [1, 2]
      = [[a, b, c], [c, d, e]] := by
    simp [buildSequences, lookupA]
  have h1 : chainStep [a, b, c] [([c, d, e], false)]
      = some ([a, b, c, d, e], [([c, d, e], true)]) := by
    simp [chainStep, tryExtendTail]
  have h2 : chainStep [a, b, c, d, e] [([c, d, e], true)] = none := by
    simp [chainStep, tryExtendTail, tryExtendHead]
  have hch : List.Chain' (· ≠ ·) [a, b, c, d, e] := by
    refine List.chain'_cons.2 ⟨hab, ?_⟩
    refine List.chain'_cons.2 ⟨hbc, ?_⟩
    refine List.chain'_cons.2 ⟨hcd, ?_⟩
    exact List.chain'_cons.2 ⟨hde, List.chain'_singleton e⟩
  unfold chain_centerlines
  rw [hbs]
  dsimp only
  unfold chainAll
  simp only [List.length_cons, List.length_nil, List.map]
  rw [chainLoop_succ, h1]
  dsimp only
  rw [chainLoop_succ, h2]
  dsimp only [forceAppend]
  rw [if_pos rfl, dedupAdjacent_eq_of_chain' _ hch]

/-- Witness for C3 at the ids `1,2,3,4,5`. -/
theorem chain_centerlines_pair_witness :
    chain_centerlines [(1, [1, 2, 3]), (2, [3, 4, 5])] [1, 2]
      = some [1, 2, 3, 4, 5] :=
  chain_centerlines_pair 1 2 3 4 5 (by decide) (by decide) (by decide)
    (by decide) (by decide) (by decide) (by decide) (by decide) (by decide)
    (by decide)

/-! ## write_csv claims -/

/-- C8 (amended): `write_csv` fails exactly when fewer than 2 of the supplied
node ids resolve to known coordinates, and the error it fails with is the
fixed message `errMsgInsufficient` — which reports that fewer than 2 valid
points were found but not the specific count. -/
theorem write_csv_error_iff (atan2f : ℚ → ℚ → ℚ) (sinf cosf : ℚ → ℚ)
    (node_xy : List (Int × (ℚ × ℚ))) (node_ids : List Int)
    (speed_kmh z_value : ℚ) (e : String) :
    write_csv atan2f sinf cosf node_xy node_ids speed_kmh z_value
        = Except.error e ↔
      ((validPts node_xy node_ids).length < 2 ∧ e = errMsgInsufficient) := by
  unfold write_csv
  by_cases h : (validPts node_xy node_ids).length < 2
  · simp only [if_pos h, Except.error.injEq]
    constructor
    · intro he; exact ⟨h, he.symm⟩
    · intro he; exact he.2.symm
  · simp [h]

/-- Counterexample for C8 as stated: the error message is the same fixed
string whether 0 or 1 node ids resolve, so the report cannot state the
specific count of valid points found. -/
theorem write_csv_message_ignores_count :
    write_csv (fun _ _ => 0) (fun _ => 0) (fun _ => 0) [] [7] 30 0
        = Except.error errMsgInsufficient ∧
    write_csv (fun _ _ => 0) (fun _ => 0) (fun _ => 0) [(1, (0, 0))] [1] 30 0
        = Except.error errMsgInsufficient :=
  ⟨rfl, rfl⟩

/-! ## C10: the stitcher neither invents nor loses node ids -/

/-- The ids still available in unused sequences of the loop state. -/
def memUnused : List (List Int × Bool) → Int → Prop
  | [], _ => False
  | (seq, u) :: rest, x => (u = false ∧ x ∈ seq) ∨ memUnused rest x

theorem mem_iff_head? {seq : List Int} {hd x : Int}
    (h : seq.head? = some hd) : x ∈ seq ↔ x = hd ∨ x ∈ seq.tail := by
  cases seq with
  | nil => simp at h
  | cons a t =>
    simp only [List.head?_cons, Option.some_inj] at h
    subst h
    simp

theorem mem_iff_getLast? {seq : List Int} {last x : Int}
    (h : seq.getLast? = some last) : x ∈ seq ↔ x ∈ seq.dropLast ∨ x = last := by
  conv_lhs => rw [← List.dropLast_append_getLast? last (Option.mem_def.2 h)]
  simp

theorem getLast?_mem' {l : List Int} {a : Int} (h : l.getLast? = some a) :
    a ∈ l := by
  rw [← List.dropLast_append_getLast? a (Option.mem_def.2 h)]
  simp

theorem head?_mem' {l : List Int} {a : Int} (h : l.head? = some a) : a ∈ l := by
  cases l with
  | nil => simp at h
  | cons b t =>
    simp only [List.head?_cons, Option.some_inj] at h
    simp [h]

theorem tryExtendTail_mem (last : Int) :
    ∀ (st : List (List Int × Bool)) (ext : List Int)
      (st' : List (List Int × Bool)),
      tryExtendTail last st = some (ext, st') →
      ∀ x, memUnused st x ↔ memUnused st' x ∨ x ∈ ext ∨ x = last := by
  intro st
  induction st with
  | nil => intro ext st' h; simp [tryExtendTail] at h
  | cons p rest ih =>
    obtain ⟨seq, u⟩ := p
    intro ext st' h x
    cases u with
    | true =>
      unfold tryExtendTail at h
      rw [if_pos rfl] at h
      cases hrec : tryExtendTail last rest with
      | none => rw [hrec] at h; exact absurd h (by simp)
      | some pr =>
        obtain ⟨ext0, rest'⟩ := pr
        rw [hrec] at h
        dsimp only at h
        simp only [Option.some_inj, Prod.mk.injEq] at h
        obtain ⟨rfl, rfl⟩ := h
        simpa [memUnused] using ih ext0 rest' hrec x
    | false =>
      unfold tryExtendTail at h
      rw [if_neg (by simp)] at h
      by_cases hh : seq.head? = some last
      · rw [if_pos hh] at h
        simp only [Option.some_inj, Prod.mk.injEq] at h
        obtain ⟨rfl, rfl⟩ := h
        have hmem := mem_iff_head? hh (x := x)
        simp only [memUnused, eq_self_iff_true, true_and, hmem]
        tauto
      · rw [if_neg hh] at h
        by_cases hl : seq.getLast? = some last
        · rw [if_pos hl] at h
          simp only [Option.some_inj, Prod.mk.injEq] at h
          obtain ⟨rfl, rfl⟩ := h
          have hmem := mem_iff_getLast? hl (x := x)
          simp only [memUnused, eq_self_iff_true, true_and, hmem,
            List.mem_reverse]
          tauto
        · rw [if_neg hl] at h
          cases hrec : tryExtendTail last rest with
          | none => rw [hrec] at h; exact absurd h (by simp)
          | some pr =>
            obtain ⟨ext0, rest'⟩ := pr
            rw [hrec] at h
            dsimp only at h
            simp only [Option.some_inj, Prod.mk.injEq] at h
            obtain ⟨rfl, rfl⟩ := h
            have := ih ext0 rest' hrec x
            simp only [memUnused, eq_self_iff_true, true_and]
            tauto

theorem tryExtendHead_mem (hd : Int) :
    ∀ (st : List (List Int × Bool)) (pre : List Int)
      (st' : List (List Int × Bool)),
      tryExtendHead hd st = some (pre, st') →
      ∀ x, memUnused st x ↔ memUnused st' x ∨ x ∈ pre ∨ x = hd := by
  intro st
  induction st with
  | nil => intro pre st' h; simp [tryExtendHead] at h
  | cons p rest ih =>
    obtain ⟨seq, u⟩ := p
    intro pre st' h x
    cases u with
    | true =>
      unfold tryExtendHead at h
      rw [if_pos rfl] at h
      cases hrec : tryExtendHead hd rest with
      | none => rw [hrec] at h; exact absurd h (by simp)
      | some pr =>
        obtain ⟨pre0, rest'⟩ := pr
        rw [hrec] at h
        dsimp only at h
        simp only [Option.some_inj, Prod.mk.injEq] at h
        obtain ⟨rfl, rfl⟩ := h
        simpa [memUnused] using ih pre0 rest' hrec x
    | false =>
      unfold tryExtendHead at h
      rw [if_neg (by simp)] at h
      by_cases hl : seq.getLast? = some hd
      · rw [if_pos hl] at h
        simp only [Option.some_inj, Prod.mk.injEq] at h
        obtain ⟨rfl, rfl⟩ := h
        have hmem := mem_iff_getLast? hl (x := x)
        simp only [memUnused, eq_self_iff_true, true_and, hmem]
        tauto
      · rw [if_neg hl] at h
        by_cases hh : seq.head? = some hd
        · rw [if_pos hh] at h
          simp only [Option.some_inj, Prod.mk.injEq] at h
          obtain ⟨rfl, rfl⟩ := h
          have hmem := mem_iff_head? hh (x := x)
          simp only [memUnused, eq_self_iff_true, true_and, hmem,
            List.mem_reverse]
          tauto
        · rw [if_neg hh] at h
          cases hrec : tryExtendHead hd rest with
          | none => rw [hrec] at h; exact absurd h (by simp)
          | some pr =>
            obtain ⟨pre0, rest'⟩ := pr
            rw [hrec] at h
            dsimp only at h
            simp only [Option.some_inj, Prod.mk.injEq] at h
            obtain ⟨rfl, rfl⟩ := h
            have := ih pre0 rest' hrec x
            simp only [memUnused, eq_self_iff_true, true_and]
            tauto

theorem chainStep_mem (chained : List Int) (st : List (List Int × Bool))
    (c' : List Int) (st' : List (List Int × Bool))
    (h : chainStep chained st = some (c', st')) :
    (∀ x, (x ∈ c' ∨ memUnused st' x) ↔ (x ∈ chained ∨ memUnused st x)) ∧
      (chained ≠ [] → c' ≠ []) := by
  unfold chainStep at h
  cases hl : chained.getLast? with
  | none => rw [hl] at h; exact absurd h (by simp)
  | some last =>
    rw [hl] at h
    dsimp only at h
    cases ht : tryExtendTail last st with
    | some pr =>
      obtain ⟨ext, stA⟩ := pr
      rw [ht] at h
      dsimp only at h
      simp only [Option.some_inj, Prod.mk.injEq] at h
      obtain ⟨rfl, rfl⟩ := h
      have hiff := tryExtendTail_mem last st ext stA ht
      have hlast : last ∈ chained := getLast?_mem' hl
      constructor
      · intro x
        have hx := hiff x
        simp only [List.mem_append]
        constructor
        · rintro ((hm | hm) | hm)
          · exact Or.inl hm
          · exact Or.inr (hx.2 (Or.inr (Or.inl hm)))
          · exact Or.inr (hx.2 (Or.inl hm))
        · rintro (hm | hm)
          · exact Or.inl (Or.inl hm)
          · rcases hx.1 hm with hm | hm | rfl
            · exact Or.inr hm
            · exact Or.inl (Or.inr hm)
            · exact Or.inl (Or.inl hlast)
      · intro hne
        simp [hne]
    | none =>
      rw [ht] at h
      cases hh : chained.head? with
      | none => rw [hh] at h; exact absurd h (by simp)
      | some hd =>
        rw [hh] at h
        dsimp only at h
        cases hth : tryExtendHead hd st with
        | none => rw [hth] at h; exact absurd h (by simp)
        | some pr =>
          obtain ⟨pre, stA⟩ := pr
          rw [hth] at h
          dsimp only at h
          simp only [Option.some_inj, Prod.mk.injEq] at h
          obtain ⟨rfl, rfl⟩ := h
          have hiff := tryExtendHead_mem hd st pre stA hth
          have hhd : hd ∈ chained := head?_mem' hh
          constructor
          · intro x
            have hx := hiff x
            simp only [List.mem_append]
            constructor
            · rintro ((hm | hm) | hm)
              · exact Or.inr (hx.2 (Or.inr (Or.inl hm)))
              · exact Or.inl hm
              · exact Or.inr (hx.2 (Or.inl hm))
            · rintro (hm | hm)
              · exact Or.inl (Or.inr hm)
              · rcases hx.1 hm with hm | hm | rfl
                · exact Or.inr hm
                · exact Or.inl (Or.inl hm)
                · exact Or.inl (Or.inr hhd)
          · intro hne
            simp [hne]

theorem chainLoop_mem (fuel : Nat) :
    ∀ (chained : List Int) (st : List (List Int × Bool)), chained ≠ [] →
      (chainLoop fuel chained st).1 ≠ [] ∧
        ∀ x, (x ∈ (chainLoop fuel chained st).1 ∨
            memUnused (chainLoop fuel chained st).2 x) ↔
          (x ∈ chained ∨ memUnused st x) := by
  induction fuel with
  | zero =>
    intro chained st hne
    exact ⟨hne, fun x => Iff.rfl⟩
  | succ fuel ih =>
    intro chained st hne
    cases hs : chainStep chained st with
    | none =>
      have heq : chainLoop (fuel + 1) chained st = (chained, st) := by
        rw [chainLoop_succ, hs]
      rw [heq]
      exact ⟨hne, fun x => Iff.rfl⟩
    | some pr =>
      obtain ⟨c', st'⟩ := pr
      have hstep := chainStep_mem chained st c' st' hs
      have heq : chainLoop (fuel + 1) chained st = chainLoop fuel c' st' := by
        rw [chainLoop_succ, hs]
      rw [heq]
      have ihr := ih c' st' (hstep.2 hne)
      exact ⟨ihr.1, fun x => (ihr.2 x).trans (hstep.1 x)⟩

theorem forceAppend_mem :
    ∀ (st : List (List Int × Bool)) (chained : List Int), chained ≠ [] →
      ∀ x, x ∈ forceAppend chained st ↔ x ∈ chained ∨ memUnused st x := by
  intro st
  induction st with
  | nil => intro chained hne x; simp [forceAppend, memUnused]
  | cons p rest ih =>
    obtain ⟨seq, u⟩ := p
    intro chained hne x
    cases u with
    | true =>
      unfold forceAppend
      rw [if_pos rfl]
      rw [ih chained hne x]
      simp [memUnused]
    | false =>
      unfold forceAppend
      rw [if_neg (by simp)]
      by_cases h1 : chained.getLast? = seq.head?
      · rw [if_pos h1]
        obtain ⟨l, hl⟩ := Option.isSome_iff_exists.1 (List.getLast?_isSome.2 hne)
        have hh : seq.head? = some l := by rw [← h1, hl]
        have hiff := mem_iff_head? hh (x := x)
        have hlm : l ∈ chained := getLast?_mem' hl
        rw [ih (chained ++ seq.tail) (by simp [hne]) x]
        simp only [List.mem_append, memUnused, eq_self_iff_true, true_and]
        constructor
        · rintro ((hm | hm) | hm)
          · exact Or.inl hm
          · exact Or.inr (Or.inl (hiff.2 (Or.inr hm)))
          · exact Or.inr (Or.inr hm)
        · rintro (hm | (hm | hm))
          · exact Or.inl (Or.inl hm)
          · rcases hiff.1 hm with rfl | hm
            · exact Or.inl (Or.inl hlm)
            · exact Or.inl (Or.inr hm)
          · exact Or.inr hm
      · by_cases h2 : chained.getLast? = seq.getLast?
        · rw [if_neg h1, if_pos h2]
          obtain ⟨l, hl⟩ := Option.isSome_iff_exists.1 (List.getLast?_isSome.2 hne)
          have hsl : seq.getLast? = some l := by rw [← h2, hl]
          have hiff := mem_iff_getLast? hsl (x := x)
          have hlm : l ∈ chained := getLast?_mem' hl
          rw [ih (chained ++ seq.dropLast.reverse) (by simp [hne]) x]
          simp only [List.mem_append, List.mem_reverse, memUnused,
            eq_self_iff_true, true_and]
          constructor
          · rintro ((hm | hm) | hm)
            · exact Or.inl hm
            · exact Or.inr (Or.inl (hiff.2 (Or.inl hm)))
            · exact Or.inr (Or.inr hm)
          · rintro (hm | (hm | hm))
            · exact Or.inl (Or.inl hm)
            · rcases hiff.1 hm with hm | rfl
              · exact Or.inl (Or.inr hm)
              · exact Or.inl (Or.inl hlm)
            · exact Or.inr hm
        · rw [if_neg h1, if_neg h2]
          rw [ih (chained ++ seq) (by simp [hne]) x]
          simp only [List.mem_append, memUnused, eq_self_iff_true, true_and]
          tauto

theorem buildSequences_two_le (way_nodes : List (Int × List Int))
    (ids : List Int) : ∀ s ∈ buildSequences way_nodes ids, 2 ≤ s.length := by
  intro s hs
  unfold buildSequences at hs
  rcases List.mem_filterMap.1 hs with ⟨wid, _, hw⟩
  cases hlk : lookupA wid way_nodes with
  | none => rw [hlk] at hw; simp at hw
  | some seq =>
    rw [hlk] at hw
    dsimp only at hw
    by_cases h2 : 2 ≤ seq.length
    · rw [if_pos h2, Option.some_inj] at hw
      exact hw ▸ h2
    · rw [if_neg h2] at hw; simp at hw

theorem memUnused_init (rest : List (List Int)) (x : Int) :
    memUnused (rest.map fun s => (s, false)) x ↔ ∃ s ∈ rest, x ∈ s := by
  induction rest with
  | nil => simp [memUnused]
  | cons s t ih => simp [memUnused, ih]

/-- C10: on every input where the stitcher succeeds, the set of node ids in
the stitched output equals the union of the ids of the usable input sequences
(those of length ≥ 2): every extension and forced join drops only an id that
is already the matched shared endpoint, and the duplicate collapse drops only
repeats. -/
theorem chain_centerlines_id_set (way_nodes : List (Int × List Int))
    (ids out : List Int) (h : chain_centerlines way_nodes ids = some out)
    (x : Int) : x ∈ out ↔ ∃ s ∈ buildSequences way_nodes ids, x ∈ s := by
  unfold chain_centerlines at h
  cases hbs : buildSequences way_nodes ids with
  | nil => rw [hbs] at h; exact absurd h (by simp)
  | cons s0 rest =>
    rw [hbs] at h
    dsimp only at h
    rw [Option.some_inj] at h
    subst h
    have hs0 : s0 ≠ [] := by
      have h2 := buildSequences_two_le way_nodes ids s0
        (hbs ▸ List.mem_cons_self _ _)
      intro hnil
      rw [hnil] at h2
      simp at h2
    rw [mem_dedupAdjacent]
    unfold chainAll
    rcases hloop : chainLoop (rest.length + 1) s0 (rest.map fun s => (s, false))
      with ⟨c, st⟩
    have hl := chainLoop_mem (rest.length + 1) s0
      (rest.map fun s => (s, false)) hs0
    rw [hloop] at hl
    dsimp only
    rw [forceAppend_mem st c hl.1 x, hl.2 x, memUnused_init]
    simp

/-- Witness for C10: a successful stitch of `[1,2]` and `[2,3]`, checked at
the id `3`. -/
theorem chain_centerlines_id_set_witness :
    (3 : Int) ∈ [(1 : Int), 2, 3] ↔
      ∃ s ∈ buildSequences [(1, [1, 2]), (2, [2, 3])] [1, 2], (3 : Int) ∈ s :=
  chain_centerlines_id_set [(1, [1, 2]), (2, [2, 3])] [1, 2] [1, 2, 3]
    (by decide) 3

end AIC
